import Mathlib

/-!
Verification of the lazy iterator core of the `ahh` library.

The repository implements a pull-based iterator protocol: an iterator is an
object with a single primitive `next: () => Option<T>` plus private mutable
cursor state.  We embed it shallowly: an iterator is a step function from an
explicit state to the yielded `Option` item together with the updated state.
Each factory and combinator of the repository becomes a state type and a step
function translated from its source.  The repository contains several
historical revisions of the same combinators; where revisions differ in
behaviour each one is embedded separately and named after its revision.

Payloads are modelled as values of an arbitrary Lean type `T`, with `Option T`
standing for the repository's optional-value protocol (`some` = present,
`none` = absent).  For the revisions whose optional type is a host-language
nullable (absent = `undefined`/`null`) this identifies payloads with non-nullish
JavaScript values; the nullable-specific behaviour of nullish payloads is
modelled separately with an explicit JavaScript value universe (`JSVal`).
-/

namespace Ahh

/-- A pull-based iterator: `next` maps the cursor state to the yielded item
(`some` = present, `none` = absent) and the updated state.  Embedding of the
repository's `Iterator` protocol (`next: () => Option<T>` over private mutable
state). -/
structure Iter (σ : Type) (T : Type) where
  next : σ → Option T × σ

namespace Iter

/-- The cursor state after `k` calls to `next`, starting from `s`. -/
def stateAfter {σ T : Type} (A : Iter σ T) : σ → Nat → σ
  | s, 0 => s
  | s, k + 1 => stateAfter A (A.next s).2 k

/-- The result of the `(k+1)`-th call to `next`, starting from state `s`. -/
def out {σ T : Type} (A : Iter σ T) (s : σ) (k : Nat) : Option T :=
  (A.next (A.stateAfter s k)).1

/-- The number of present results among the first `m` calls to `next`. -/
def presents {σ T : Type} (A : Iter σ T) : σ → Nat → Nat
  | _, 0 => 0
  | s, m + 1 => (if (A.next s).1.isSome then 1 else 0) + presents A (A.next s).2 m

@[simp]
theorem out_zero {σ T : Type} (A : Iter σ T) (s : σ) : A.out s 0 = (A.next s).1 :=
  rfl

@[simp]
theorem out_succ {σ T : Type} (A : Iter σ T) (s : σ) (k : Nat) :
    A.out s (k + 1) = A.out (A.next s).2 k :=
  rfl

end Iter

/-- Embedding of `I.iter(seq)` / `FromIter` over a finite sequence: the cursor is the list
of remaining elements; `next` pulls the head (`next.done ? None : next.value`
over the array iterator) and returns absent forever once the list is empty. -/
def listIter (T : Type) : Iter (List T) T :=
  ⟨fun s =>
    match s with
    | [] => (none, [])
    | x :: xs => (some x, xs)⟩

/-- The `Once` class: the state is the `#item` field (`Option<T>`); `next`
returns the stored item and clears it, or returns absent. -/
def onceIter (T : Type) : Iter (Option T) T :=
  ⟨fun s =>
    match s with
    | some v => (some v, none)
    | none => (none, none)⟩

/-- Embedding of `successors(seed, f)` (the `I.successors` closure and the `Successors` class):
the state is the internal `current`/`#item` field; when it is present with
value `v` the call returns `v` and stores `f v`; when absent it returns absent
and leaves the state untouched. -/
def succIter {T : Type} (f : T → Option T) : Iter (Option T) T :=
  ⟨fun s =>
    match s with
    | some v => (some v, f v)
    | none => (none, none)⟩

/-- A `fromCallback`/`I.fn` source built from a counter callback: the first
call returns absent, every later call returns `some 42`.  The spec explicitly
allows such sources to resume yielding present values after an absent. -/
def resumeIter : Iter Nat Int :=
  ⟨fun n => ((if n = 0 then none else some 42), n + 1)⟩

theorem listIter_out {T : Type} (l : List T) (k : Nat) :
    (listIter T).out l k = l.get? k := by
  induction l generalizing k with
  | nil =>
    induction k with
    | zero => rfl
    | succ k ih => simpa [listIter] using ih
  | cons x xs ih =>
    cases k with
    | zero => rfl
    | succ k => simpa [listIter] using ih k

theorem onceIter_out_none {T : Type} (k : Nat) : (onceIter T).out none k = none := by
  induction k with
  | zero => rfl
  | succ k ih => simpa [onceIter] using ih

theorem succIter_out_none {T : Type} (f : T → Option T) (k : Nat) :
    (succIter f).out none k = none := by
  induction k with
  | zero => rfl
  | succ k ih => simpa [succIter] using ih

/-- C6: an iterator built from a finite sequence of length `N` yields exactly
the `N` elements, in order, as its first `N` present results, and every call
from the `(N+1)`-th on returns absent (`(listIter T).out l k = l.get? k` gives
both the present prefix and the permanent absence); likewise `once(item)`
yields one present result and then absent forever. -/
theorem c6_finite_source_exhaustion :
    (∀ (T : Type) (l : List T) (k : Nat), (listIter T).out l k = l.get? k) ∧
    (∀ (T : Type) (x : T), (onceIter T).out (some x) 0 = some x) ∧
    (∀ (T : Type) (x : T) (k : Nat), (onceIter T).out (some x) (k + 1) = none) := by
  refine ⟨fun T l k => listIter_out l k, fun T x => rfl, fun T x k => ?_⟩
  simpa [onceIter] using onceIter_out_none (T := T) k

/-- C7: `successors(seed, f)` returns the stored present value `v` and replaces
the state by `f v`; an absent state returns absent and stays absent on every
later call; and `successors(present(0), x => present(x+1))` yields
`present(0)`, `present(1)`, `present(2)`, `present(3)` on its first four
calls. -/
theorem c7_successors_state_machine :
    (∀ (T : Type) (f : T → Option T) (v : T),
      (succIter f).next (some v) = (some v, f v)) ∧
    (∀ (T : Type) (f : T → Option T) (k : Nat), (succIter f).out none k = none) ∧
    ((succIter (fun x : Int => some (x + 1))).out (some 0) 0 = some 0 ∧
      (succIter (fun x : Int => some (x + 1))).out (some 0) 1 = some 1 ∧
      (succIter (fun x : Int => some (x + 1))).out (some 0) 2 = some 2 ∧
      (succIter (fun x : Int => some (x + 1))).out (some 0) 3 = some 3) := by
  refine ⟨fun T f v => rfl, fun T f k => succIter_out_none f k, ?_, ?_, ?_, ?_⟩ <;> decide

/-- Embedding of `I.take(iter, n)` (closure revision) and the `Take` class: the state pairs
the remaining budget `n` (a JavaScript number, modelled as an integer) with the
source state.  Each call evaluates `n-- > 0`: the budget is decremented
unconditionally, and the source is pulled only while the old budget was
positive. -/
def takeIter {σ T : Type} (A : Iter σ T) : Iter (Int × σ) T :=
  ⟨fun s =>
    if 0 < s.1 then ((A.next s.2).1, (s.1 - 1, (A.next s.2).2))
    else (none, (s.1 - 1, s.2))⟩

/-- The `done`-flag revision of `I.takeWhile`: the state pairs the captured
`done` flag with the source state.  Each call pulls the source first
(`const next = iter.next()` runs unconditionally, also when `done` is set);
the pulled item is returned only when the flag is clear, the item is present
and satisfies `f`; otherwise the flag is set and absent is returned. -/
def takeWhileFlag {σ T : Type} (A : Iter σ T) (f : T → Bool) : Iter (Bool × σ) T :=
  ⟨fun s =>
    if s.1 then (none, (true, (A.next s.2).2))
    else
      match (A.next s.2).1 with
      | some v =>
        if f v then (some v, (false, (A.next s.2).2)) else (none, (true, (A.next s.2).2))
      | none => (none, (true, (A.next s.2).2))⟩

/-- The later revision of `I.takeWhile`, which keeps no flag: every call pulls
the source and returns the item when it is present and satisfies `f`, absent
otherwise. -/
def takeWhileNoFlag {σ T : Type} (A : Iter σ T) (f : T → Bool) : Iter σ T :=
  ⟨fun s =>
    match A.next s with
    | (some v, s') => if f v then (some v, s') else (none, s')
    | (none, s') => (none, s')⟩

/-- The `TakeWhile` class: its `#iter` field is typed `Option<Iterator<T>>`
but `next()` never assigns `undefined` to it, so the live branch pulls and
re-checks the source on every call. -/
def takeWhileClass {σ T : Type} (A : Iter σ T) (f : T → Bool) : Iter (Option σ) T :=
  ⟨fun s =>
    match s with
    | some s₀ =>
      match A.next s₀ with
      | (some v, s') => ((if f v then some v else none), some s')
      | (none, s') => (none, some s')
    | none => (none, none)⟩

/-- Embedding of `I.zip(a, b)` and the `Zip` class: each call runs `a.next()` and
`b.next()` unconditionally, then returns the pair when both results are
present and absent otherwise. -/
def zipIter {α β T U : Type} (A : Iter α T) (B : Iter β U) : Iter (α × β) (T × U) :=
  ⟨fun s =>
    ((match (A.next s.1).1, (B.next s.2).1 with
      | some a, some b => some (a, b)
      | _, _ => none),
      ((A.next s.1).2, (B.next s.2).2))⟩

/-- The `Fuse` class: the state is the `#iter` field (`Option` of the wrapped
source).  While the field is live a call pulls the source; when the pull is
absent the field is cleared; once cleared every call returns absent without
touching the source. -/
def fuseIter {σ T : Type} (A : Iter σ T) : Iter (Option σ) T :=
  ⟨fun s =>
    match s with
    | some s₀ =>
      match A.next s₀ with
      | (some v, s') => (some v, some s')
      | (none, _) => (none, none)
    | none => (none, none)⟩

/-- Embedding of `I.peekable` / the `Peekable` class, `next()` side: the state pairs the
`peeked` buffer with the source state; a buffered item is returned and the
buffer cleared, otherwise the source is pulled. -/
def peekableIter {σ T : Type} (A : Iter σ T) : Iter (Option T × σ) T :=
  ⟨fun s =>
    match s.1 with
    | some v => (some v, (none, s.2))
    | none => ((A.next s.2).1, (none, (A.next s.2).2))⟩

/-- Embedding of `peek()`: when the buffer is empty it stores `iter.next()` in the buffer,
then returns the buffer.  In the nullable encoding an absent pull leaves the
buffer in the "nothing buffered" state, which is exactly `none` here.
Returns the peeked item together with the updated peekable state. -/
def peekFn {σ T : Type} (A : Iter σ T) (s : Option T × σ) : Option T × (Option T × σ) :=
  match s.1 with
  | some v => (some v, (some v, s.2))
  | none => ((A.next s.2).1, ((A.next s.2).1, (A.next s.2).2))

/-- The result and state of the `(k+1)`-th consecutive `peek()` call (no
intervening `next()`), starting from peekable state `s`. -/
def peekSeq {σ T : Type} (A : Iter σ T) (s : Option T × σ) : Nat → Option T × (Option T × σ)
  | 0 => peekFn A s
  | k + 1 => peekFn A (peekSeq A s k).2

theorem peekFn_buffer {σ T : Type} (A : Iter σ T) (s : Option T × σ) :
    ((peekFn A s).2).1 = (peekFn A s).1 := by
  cases h : s.1 <;> simp [peekFn, h]

theorem fuseIter_out_none {σ T : Type} (A : Iter σ T) (k : Nat) :
    (fuseIter A).out none k = none := by
  induction k with
  | zero => rfl
  | succ k ih => simpa [fuseIter] using ih

theorem takeWhileFlag_out_done {σ T : Type} (A : Iter σ T) (f : T → Bool) (s : σ) (k : Nat) :
    (takeWhileFlag A f).out (true, s) k = none := by
  induction k generalizing s with
  | zero => rfl
  | succ k ih => simpa [takeWhileFlag] using ih (A.next s).2

theorem takeIter_next_pos {σ T : Type} (A : Iter σ T) {n : Int} (s : σ) (h : 0 < n) :
    (takeIter A).next (n, s) = ((A.next s).1, (n - 1, (A.next s).2)) := by
  simp [takeIter, h]

theorem takeIter_next_nonpos {σ T : Type} (A : Iter σ T) {n : Int} (s : σ) (h : ¬ 0 < n) :
    (takeIter A).next (n, s) = (none, (n - 1, s)) := by
  simp [takeIter, h]

/-- C8: `take(iter, n)` returns a present value on at most `n` of its `next()`
calls, for every source, every starting state, every integer budget `n` and
every number `m` of calls made. -/
theorem c8_take_bound (σ T : Type) (A : Iter σ T) (n : Int) (s : σ) (m : Nat) :
    (takeIter A).presents (n, s) m ≤ n.toNat := by
  induction m generalizing n s with
  | zero => simp [Iter.presents]
  | succ m ih =>
    by_cases h : 0 < n
    · have h1 := ih (n - 1) (A.next s).2
      simp only [Iter.presents, takeIter_next_pos A s h]
      have h2 : (if ((A.next s).1).isSome then 1 else 0) ≤ 1 := by split <;> omega
      omega
    · have h1 := ih (n - 1) s
      simp only [Iter.presents, takeIter_next_nonpos A s h, Option.isSome_none,
        Bool.false_eq_true, if_false]
      omega

/-- C1 (counterexample): on `takeWhile(fromSequence([4,3,2]), isEven)` both
the `TakeWhile` class and the flagless `I.takeWhile` revision return absent on
the second call (3 fails the predicate) and yet return `present 2` on the
third call — the combinator pulled and re-checked the source after its first
absent, refuting the claimed permanent absence. -/
theorem c1_takeWhile_counterexample :
    ((takeWhileClass (listIter Int) (fun v => v % 2 == 0)).out (some [4, 3, 2]) 1 = none ∧
      (takeWhileClass (listIter Int) (fun v => v % 2 == 0)).out (some [4, 3, 2]) 2 = some 2) ∧
    ((takeWhileNoFlag (listIter Int) (fun v => v % 2 == 0)).out [4, 3, 2] 1 = none ∧
      (takeWhileNoFlag (listIter Int) (fun v => v % 2 == 0)).out [4, 3, 2] 2 = some 2) := by
  decide

/-- C1 (amended): only the `done`-flag revision of `I.takeWhile` makes absence
permanent: from a state with the flag set, every call returns absent and keeps
the flag set — but each such call still pulls one item from the underlying
source (the source state advances by one `next`).  The `TakeWhile` class and
the flagless revision keep re-checking the source and can yield present values
again (see the counterexample). -/
theorem c1_takeWhile_amended :
    (∀ (σ T : Type) (A : Iter σ T) (f : T → Bool) (s : σ),
      (takeWhileFlag A f).next (true, s) = (none, (true, (A.next s).2))) ∧
    (∀ (σ T : Type) (A : Iter σ T) (f : T → Bool) (s : σ) (k : Nat),
      (takeWhileFlag A f).out (true, s) k = none) :=
  ⟨fun _ _ _ _ _ => rfl, fun _ _ A f s k => takeWhileFlag_out_done A f s k⟩

theorem zipList_next_nil_nil {T U : Type} :
    (zipIter (listIter T) (listIter U)).next (([] : List T), ([] : List U)) =
      (none, ([], [])) :=
  rfl

theorem zipList_next_nil_cons {T U : Type} (y : U) (ys : List U) :
    (zipIter (listIter T) (listIter U)).next (([] : List T), y :: ys) =
      (none, ([], ys)) :=
  rfl

theorem zipList_next_cons_nil {T U : Type} (x : T) (xs : List T) :
    (zipIter (listIter T) (listIter U)).next (x :: xs, ([] : List U)) =
      (none, (xs, [])) :=
  rfl

theorem zipList_next_cons_cons {T U : Type} (x : T) (xs : List T) (y : U) (ys : List U) :
    (zipIter (listIter T) (listIter U)).next (x :: xs, y :: ys) =
      (some (x, y), (xs, ys)) :=
  rfl

/-- C2 (counterexample): `zip(fromSequence([]), fromSequence([1,2]))` returns
absent on its first call, yet that call pulls the right-hand iterator and
advances its state from `[1, 2]` to `[2]` — the other side is not left
unchanged once one side is absent. -/
theorem c2_zip_counterexample :
    (zipIter (listIter Int) (listIter Int)).next (([] : List Int), ([1, 2] : List Int)) =
      (none, ([], [2])) ∧
    ((zipIter (listIter Int) (listIter Int)).next
        (([] : List Int), ([1, 2] : List Int))).2.2 ≠ [1, 2] := by
  decide

/-- C2 (amended): `zip` returns absent on any call where either side's pull is
absent, but every call pulls BOTH sides unconditionally, so the other
iterator's state advances even on absent calls; over finite sequences of
lengths `m` and `n` the `k`-th result is the `k`-th pair while `k < min m n`
and absent afterwards. -/
theorem c2_zip_amended :
    (∀ (α β T U : Type) (A : Iter α T) (B : Iter β U) (sa : α) (sb : β),
      ((zipIter A B).next (sa, sb)).2 = ((A.next sa).2, (B.next sb).2)) ∧
    (∀ (T U : Type) (a : List T) (b : List U) (k : Nat),
      (zipIter (listIter T) (listIter U)).out (a, b) k =
        (a.get? k).bind (fun x => (b.get? k).map (fun y => (x, y)))) := by
  refine ⟨fun α β T U A B sa sb => rfl, fun T U a b k => ?_⟩
  induction k generalizing a b with
  | zero =>
    cases a <;> cases b <;>
      simp [Iter.out_zero, zipList_next_nil_nil, zipList_next_nil_cons,
        zipList_next_cons_nil, zipList_next_cons_cons]
  | succ k ih =>
    cases a <;> cases b <;>
      simp [Iter.out_succ, zipList_next_nil_nil, zipList_next_nil_cons,
        zipList_next_cons_nil, zipList_next_cons_cons, ih]

/-- C5: once `fuse` returns absent it has dropped the wrapped source, and every
later call returns absent: a call whose result is absent leaves the cleared
state; from the cleared state every call returns absent; and concretely, over
a callback source that yields absent once and then `present 42` forever, the
fused iterator stays absent on the second call even though the bare source
would yield `present 42` there. -/
theorem c5_fuse_terminality :
    (∀ (σ T : Type) (A : Iter σ T) (s : Option σ),
      ((fuseIter A).next s).1 = none → ((fuseIter A).next s).2 = none) ∧
    (∀ (σ T : Type) (A : Iter σ T) (k : Nat), (fuseIter A).out none k = none) ∧
    ((fuseIter resumeIter).out (some 0) 0 = none ∧
      (fuseIter resumeIter).out (some 0) 1 = none ∧
      resumeIter.out 1 0 = some 42) := by
  refine ⟨fun σ T A s => ?_, fun σ T A k => fuseIter_out_none A k, by decide⟩
  cases s with
  | none => intro _; rfl
  | some s₀ =>
    cases h : A.next s₀ with
    | mk o s' =>
      cases o with
      | none => intro _; simp [fuseIter, h]
      | some v => intro hc; simp [fuseIter, h] at hc

/-- Witness for C5: the first conjunct applied to a fused empty sequence —
the first call returns absent and the state is indeed cleared. -/
theorem c5_fuse_terminality_witness :
    ((fuseIter (listIter Int)).next (some ([] : List Int))).1 = none ∧
    ((fuseIter (listIter Int)).next (some ([] : List Int))).2 = none :=
  ⟨rfl, c5_fuse_terminality.1 (List Int) Int (listIter Int) (some []) rfl⟩

/-- The later revision of `I.skipWhile`: every call to `next` reruns the skip
loop — pull, then keep pulling while the item is present and satisfies `f` —
and returns the first pull that escapes the loop.  The loop is embedded
structurally over a sequence-backed source (state = remaining list). -/
def skipWhileEveryCall {T : Type} (f : T → Bool) : Iter (List T) T :=
  ⟨fun s =>
    let rec loop : List T → Option T × List T
      | [] => (none, [])
      | x :: xs => if f x then loop xs else (some x, xs)
    loop s⟩

/-- The `SkipWhile` class constructor: it wraps the source in a `Peekable` and
consumes items with `nextIf(fn)` while they satisfy `fn`; the loop stops with
the first non-matching item still buffered in the peekable (or with an empty
buffer on exhaustion).  Over a sequence-backed source this computes the
resulting peekable state (buffer, remaining list); iteration afterwards is
`peekableIter` since `next()` just delegates to the wrapper. -/
def skipWhileClassInit {T : Type} (f : T → Bool) : List T → Option T × List T
  | [] => (none, [])
  | x :: xs => if f x then skipWhileClassInit f xs else (some x, xs)

/-- C3: evaluation at the claimed scenario.  The later `I.skipWhile` revision
yields `present 2` and then absent on `skipWhile(fromSequence([1,3,2,3]),
odd)` — the trailing `3` is dropped because the skip loop reruns on every
call — while the `SkipWhile` class yields `present 2`, `present 3`, absent as
the claim (and the earlier revision's documented example) states. -/
theorem c3_skipWhile_first_nonmatching :
    ((skipWhileEveryCall (fun v : Int => v % 2 != 0)).out [1, 3, 2, 3] 0 = some 2 ∧
      (skipWhileEveryCall (fun v : Int => v % 2 != 0)).out [1, 3, 2, 3] 1 = none) ∧
    (skipWhileClassInit (fun v : Int => v % 2 != 0) [1, 3, 2, 3] = (some 2, [3]) ∧
      (peekableIter (listIter Int)).out
        (skipWhileClassInit (fun v : Int => v % 2 != 0) [1, 3, 2, 3]) 0 = some 2 ∧
      (peekableIter (listIter Int)).out
        (skipWhileClassInit (fun v : Int => v % 2 != 0) [1, 3, 2, 3]) 1 = some 3 ∧
      (peekableIter (listIter Int)).out
        (skipWhileClassInit (fun v : Int => v % 2 != 0) [1, 3, 2, 3]) 2 = none) := by
  decide

/-- C4 (counterexample): over a `fromCallback` source whose first call returns
absent and whose later calls return `present 42`, two consecutive `peek()`
calls with no intervening `next()` return different values (absent, then
`present 42`), and each of them pulls the underlying source, whose counter
advances from 0 to 2. -/
theorem c4_peek_counterexample :
    (peekFn resumeIter (none, 0)).1 = none ∧
    (peekFn resumeIter (peekFn resumeIter (none, 0)).2).1 = some 42 ∧
    (peekFn resumeIter (peekFn resumeIter (none, 0)).2).2.2 = 2 := by
  decide

/-- C4 (amended): repeated `peek()` is idempotent only once a peek has found a
present value: if a `peek()` returns `present v`, then every later consecutive
`peek()` (any `k`) returns `present v` again and leaves the peekable state —
underlying source included — unchanged.  A peek that finds absent buffers
nothing, so the next peek pulls the source again (see the counterexample). -/
theorem c4_peek_amended (σ T : Type) (A : Iter σ T) (s : Option T × σ) (v : T)
    (h : (peekFn A s).1 = some v) (k : Nat) :
    peekSeq A s k = (some v, (peekFn A s).2) := by
  induction k with
  | zero =>
    show peekFn A s = (some v, (peekFn A s).2)
    rw [← h]
  | succ k ih =>
    rw [peekSeq, ih]
    have hb : ((peekFn A s).2).1 = some v := (peekFn_buffer A s).trans h
    have hs2 : (peekFn A s).2 = (some v, ((peekFn A s).2).2) := by
      rw [← hb]
    rw [hs2]
    rfl

/-- Witness for C4 (amended): peeking a one-element sequence finds
`present 5`; the third consecutive peek still returns `present 5` with the
state of the first peek. -/
theorem c4_peek_amended_witness :
    (peekFn (listIter Int) (none, [5])).1 = some 5 ∧
    peekSeq (listIter Int) (none, [5]) 2 = (some 5, (peekFn (listIter Int) (none, [5])).2) :=
  ⟨rfl, c4_peek_amended (List Int) Int (listIter Int) (none, [5]) 5 rfl 2⟩

/-- Big-step embedding of the `find` loop (`let next = iter.next(); while
(isSome(next) && !f(next)) next = iter.next(); return next;`): `FindRun A f s
n r` holds when the loop, started at source state `s`, makes exactly `n` pulls
and produces the result item together with the final source state `r`. -/
inductive FindRun {σ T : Type} (A : Iter σ T) (f : T → Bool) :
    σ → Nat → Option T × σ → Prop
  | stopAbsent {s s' : σ} : A.next s = (none, s') → FindRun A f s 1 (none, s')
  | stopFound {s s' : σ} {v : T} : A.next s = (some v, s') → f v = true →
      FindRun A f s 1 (some v, s')
  | skipOne {s s' : σ} {v : T} {n : Nat} {r : Option T × σ} : A.next s = (some v, s') →
      f v = false → FindRun A f s' n r → FindRun A f s (n + 1) r

/-- Embedding of `filter`: it is `I.fn(() => I.find(iter, f))`, and the `Filter` class's
`next()` is `return this.#iter.find(this.#fn)`: a call to the filtered
iterator's `next` at source state `s` is exactly one run of the `find` loop
at `s`. -/
def FilterRun {σ T : Type} (A : Iter σ T) (f : T → Bool) :
    σ → Nat → Option T × σ → Prop :=
  FindRun A f

/-- Spec-side description of one `filter`/`find` call over a sequence-backed
source: the first pulled item satisfying `f` (absent when the source is
exhausted first) together with the not-yet-inspected remainder — every
inspected item is consumed. -/
def findSpecL {T : Type} (f : T → Bool) (l : List T) : Option T × List T :=
  ((l.dropWhile (fun x => ! f x)).head?, (l.dropWhile (fun x => ! f x)).tail)

/-- The number of pulls such a call makes: the rejected prefix plus the
deciding pull. -/
def findPulls {T : Type} (f : T → Bool) (l : List T) : Nat :=
  (l.takeWhile (fun x => ! f x)).length + 1

/-- C9: each `next()` call on `filter(iter, f)` is exactly a `find(iter, f)`
run from the source's current state; over a sequence-backed source it returns
the first item satisfying `f` (absent when the source is exhausted first) and
consumes exactly the inspected prefix; and over a callback source that resumes
after an absent, a call that returned absent (with one pull) is followed by a
call returning a present value — filter is not fused and pulls the source at
least once on every call. -/
theorem c9_filter_behaves_as_find :
    (∀ (σ T : Type) (A : Iter σ T) (f : T → Bool) (s : σ) (n : Nat) (r : Option T × σ),
      FilterRun A f s n r ↔ FindRun A f s n r) ∧
    (∀ (T : Type) (f : T → Bool) (l : List T),
      FindRun (listIter T) f l (findPulls f l) (findSpecL f l)) ∧
    (FindRun resumeIter (fun _ => true) 0 1 (none, 1) ∧
      FindRun resumeIter (fun _ => true) 1 1 (some 42, 2)) := by
  refine ⟨fun σ T A f s n r => Iff.rfl, fun T f l => ?_, ?_, ?_⟩
  · induction l with
    | nil => exact FindRun.stopAbsent rfl
    | cons x xs ih =>
      cases hfx : f x with
      | true =>
        have hs : findSpecL f (x :: xs) = (some x, xs) := by
          simp [findSpecL, List.dropWhile, hfx]
        have hp : findPulls f (x :: xs) = 1 := by
          simp [findPulls, List.takeWhile, hfx]
        rw [hs, hp]
        exact FindRun.stopFound rfl hfx
      | false =>
        have hs : findSpecL f (x :: xs) = findSpecL f xs := by
          simp [findSpecL, List.dropWhile, hfx]
        have hp : findPulls f (x :: xs) = findPulls f xs + 1 := by
          simp [findPulls, List.takeWhile, hfx]
        rw [hs, hp]
        exact FindRun.skipOne rfl hfx ih
  · exact FindRun.stopAbsent rfl
  · exact FindRun.stopFound rfl rfl

/-- The value universe of the nullable-encoded revisions: a JavaScript value
is `undefined`, `null`, or a payload (numbers, booleans, strings, ...).  In
these revisions `Option<T>` is `T | undefined | null`, so an iterator's `next`
returns such a value directly, with no wrapper around payloads. -/
inductive JSVal : Type
  | undef
  | vnull
  | num (n : Int)
  | bool (b : Bool)
  | str (s : String)
  deriving DecidableEq

/-- Embedding of `O.isSome` of the nullable revision: `o !== undefined && o !== null`. -/
def isSomeJS (v : JSVal) : Bool :=
  decide (v ≠ JSVal.undef) && decide (v ≠ JSVal.vnull)

/-- Embedding of `FromIter.next` over a sequence in the nullable revisions:
`value.done ? undefined : value.value` — the element itself is returned, so an
element equal to `undefined`/`null` comes back as the absent marker. -/
def jsSeqNext : List JSVal → JSVal × List JSVal
  | [] => (JSVal.undef, [])
  | x :: xs => (x, xs)

/-- The `I.fold`/`I.forEach` loop of the nullable revision run over a
sequence-backed iterator: pull, stop as soon as `O.isNone(next)` holds,
otherwise feed the item to the accumulator and continue. -/
def jsFold {U : Type} (g : U → JSVal → U) : U → List JSVal → U
  | init, [] => init
  | init, x :: xs => if isSomeJS x then jsFold g (g init x) xs else init

/-- Embedding of `I.count`: `fold` specialised to count the iterations. -/
def jsCount (l : List JSVal) : Nat :=
  jsFold (fun c _ => c + 1) 0 l

/-- C10: in the nullable encoding a nullish payload is indistinguishable from
exhaustion — `isSome` rejects `undefined` and `null` but accepts the falsy
payloads `0`, `false` and `""`; an iterator over `[0, undefined, 2]` yields
`0` and then the absent marker at the `undefined` position; `count` (via the
`fold`/`forEach` loop) stops there and reports 1, while over
`[0, false, ""]` all three falsy payloads are counted. -/
theorem c10_nullable_encoding_confusion :
    (isSomeJS (JSVal.num 0) = true ∧ isSomeJS (JSVal.bool false) = true ∧
      isSomeJS (JSVal.str "") = true ∧ isSomeJS JSVal.undef = false ∧
      isSomeJS JSVal.vnull = false) ∧
    (jsSeqNext [JSVal.num 0, JSVal.undef, JSVal.num 2] =
        (JSVal.num 0, [JSVal.undef, JSVal.num 2]) ∧
      jsSeqNext [JSVal.undef, JSVal.num 2] = (JSVal.undef, [JSVal.num 2])) ∧
    jsCount [JSVal.num 0, JSVal.undef, JSVal.num 2] = 1 ∧
    jsCount [JSVal.num 0, JSVal.bool false, JSVal.str ""] = 3 := by
  decide

end Ahh
